import Mathlib

/-!
Shallow embedding of the revenue-table extraction routine
`get_revenue_from_macrotrends` from `06_stock_project_cheatsheet.py`.

Strings are modelled as lists of characters (`Str := List Char`) so that
every operation is structurally recursive and kernel-evaluable.  Python
floats are idealised as exact rationals plus the special values
(infinities, NaN).  Conversion from text models CPython `float(...)`
including its underscore digit separators, its special literals and its
saturation of out-of-range numerals to an infinity; only the rounding of
in-range values to binary64 is idealised away (no claim depends on an
in-range rounding error).
-/

set_option maxRecDepth 16384

namespace StockSpec

/-- Characters removed by Python's `str.strip()` (ASCII whitespace). -/
def isPySpace (c : Char) : Bool :=
  c = ' ' || c = '\t' || c = '\n' || c = '\r' || c = '\x0b' || c = '\x0c'

/-- Text is modelled as a list of characters. -/
abbrev Str := List Char

/-- Model of `str.strip()` / BeautifulSoup `get_text(strip=True)` on a cell:
drop leading and trailing whitespace. -/
def pyStrip (s : Str) : Str :=
  ((s.dropWhile isPySpace).reverse.dropWhile isPySpace).reverse

/-- ASCII lower-casing of one character, as done by `str.lower()` on the
ASCII range (the only range exercised by the routine's comparisons). -/
def lowerChar (c : Char) : Char :=
  if 65 ≤ c.toNat ∧ c.toNat ≤ 90 then Char.ofNat (c.toNat + 32) else c

/-- Model of `str.lower()`. -/
def pyLower (s : Str) : Str := s.map lowerChar

/-- `leadsWith pat s` holds when `s` begins with `pat`. -/
def leadsWith : Str → Str → Bool
  | [], _ => true
  | _ :: _, [] => false
  | p :: ps, c :: cs => p = c && leadsWith ps cs

/-- Model of Python's `pat in s` substring test (case-sensitive, exact). -/
def hasSub : Str → Str → Bool
  | [], pat => pat.isEmpty
  | c :: rest, pat => leadsWith pat (c :: rest) || hasSub rest pat

/-- Code-point lexicographic `<=` on strings, Python's string ordering,
which is also what `DataFrame.sort_values` applies to a string column. -/
def lexLe : Str → Str → Bool
  | [], _ => true
  | _ :: _, [] => false
  | a :: as, b :: bs =>
    a.toNat < b.toNat || (a.toNat = b.toNat && lexLe as bs)

/-- Numeric value of a digit string (most significant first). -/
def digitsVal (ds : Str) : Nat :=
  ds.foldl (fun a c => a * 10 + (c.toNat - 48)) 0

/-- Split an optional leading sign off a character list; returns
(negative?, remainder). -/
def stripSign : Str → Bool × Str
  | '-' :: cs => (true, cs)
  | '+' :: cs => (false, cs)
  | cs => (false, cs)

/-- Continuation of a digit group: further digits, where a single
underscore may stand between two digits (CPython's separator rule);
returns the collected digits (underscores dropped) and the rest. -/
def scanTail : Str → Str × Str
  | '_' :: c :: rest =>
    if c.isDigit then
      let r := scanTail rest
      (c :: r.1, r.2)
    else ([], '_' :: c :: rest)
  | c :: rest =>
    if c.isDigit then
      let r := scanTail rest
      (c :: r.1, r.2)
    else ([], c :: rest)
  | [] => ([], [])

/-- A digit group must begin with a digit (never with an underscore);
returns the collected digits (underscores dropped) and the rest. -/
def scanDigits : Str → Str × Str
  | c :: rest =>
    if c.isDigit then
      let r := scanTail rest
      (c :: r.1, r.2)
    else ([], c :: rest)
  | [] => ([], [])

/-- Parse the mantissa part of a Python float literal: a digit group,
optionally a point with a further digit group; at least one digit
overall, and nothing left over. -/
def parseMantissa (cs : Str) : Option ℚ :=
  let ipr := scanDigits cs
  match ipr.2 with
  | [] => if ipr.1.isEmpty then none else some (digitsVal ipr.1 : ℚ)
  | '.' :: rest =>
    let fpr := scanDigits rest
    if fpr.2.isEmpty ∧ ¬(ipr.1.isEmpty ∧ fpr.1.isEmpty) then
      some ((digitsVal ipr.1 : ℚ)
        + (digitsVal fpr.1 : ℚ) / (10 : ℚ) ^ fpr.1.length)
    else none
  | _ => none

/-- Split a (lower-cased) literal at the first exponent marker `e`. -/
def splitExp : Str → Str × Option Str
  | [] => ([], none)
  | c :: cs =>
    if c = 'e' then ([], some cs)
    else
      let r := splitExp cs
      (c :: r.1, r.2)

/-- Parse an exponent: optional sign then a nonempty digit group with
nothing left over. -/
def parseExpVal (cs : Str) : Option Int :=
  let sp := stripSign cs
  let dr := scanDigits sp.2
  if dr.1.isEmpty ∨ ¬ dr.2.isEmpty then none
  else some (if sp.1 then -(digitsVal dr.1 : Int) else (digitsVal dr.1 : Int))

/-- Ten to an integer power, as a rational. -/
def qpow10 (e : Int) : ℚ :=
  if 0 ≤ e then (10 : ℚ) ^ e.toNat else 1 / (10 : ℚ) ^ (-e).toNat

/-- Parse an unsigned number body (mantissa and optional exponent). -/
def parseNum (cs : Str) : Option ℚ :=
  let me := splitExp cs
  match me.2 with
  | none => parseMantissa me.1
  | some ecs =>
    match parseMantissa me.1, parseExpVal ecs with
    | some q, some e => some (q * qpow10 e)
    | _, _ => none

/-- Values Python's `float(...)` can produce: a finite rational (binary
rounding idealised away), a signed infinity, or NaN. -/
inductive PyFloat where
  | finite (q : ℚ)
  | inf (neg : Bool)
  | nan
deriving DecidableEq, Repr

/-- Finiteness of a float value. -/
def PyFloat.isFinite : PyFloat → Bool
  | .finite _ => true
  | _ => false

/-- Whitespace-stripped, lower-cased, sign-split body of a float literal,
mirroring the front end of CPython's `float(str)`. -/
def floatBody (s : Str) : Bool × Str := stripSign (pyLower (pyStrip s))

/-- CPython's `float(str)` saturates: under round-to-nearest a numeral
whose magnitude is at least 2^1024 - 2^970 (the binary64 overflow
threshold) converts to an infinity.  Stated on numerator and denominator
so it kernel-evaluates: |num/den| >= T iff T * den <= |num|. -/
def floatOverflows (q : ℚ) : Bool :=
  2 ^ 970 * (2 ^ 54 - 1) * q.den ≤ q.num.natAbs

/-- Model of Python `float(s)`: accepts decimal numerals with optional
sign, point, exponent and underscore separators, and the special
literals `inf`, `infinity`, `nan` (case-insensitive, optionally signed);
`none` on anything else.  An out-of-range numeral saturates to the
signed infinity, as CPython does. -/
def pyFloat? (s : Str) : Option PyFloat :=
  let nb := floatBody s
  if nb.2 = "inf".data ∨ nb.2 = "infinity".data then some (PyFloat.inf nb.1)
  else if nb.2 = "nan".data then some PyFloat.nan
  else (parseNum nb.2).map fun q =>
    if floatOverflows q then PyFloat.inf nb.1
    else PyFloat.finite (if nb.1 then -q else q)

/-- The cleaned body of `s` spells one of the special `float` literals. -/
def isSpecialLit (s : Str) : Prop :=
  (floatBody s).2 = "inf".data ∨ (floatBody s).2 = "infinity".data ∨
    (floatBody s).2 = "nan".data

/-- A `<table>` element as seen by the routine: its full rendered text
(`tbl.get_text()`) and, when the markup has an explicit `<tbody>`, the
list of its `<tr>` rows, each a list of raw `<td>` cell texts.  With the
`html.parser` backend `tbl.tbody` is `None` when no `<tbody>` tag is
present, hence the `Option`. -/
structure HtmlTable where
  text : Str
  tbody : Option (List (List Str))
deriving DecidableEq

/-- A parsed document is its tables in document order. -/
abbrev Document := List HtmlTable

/-- Terminal outcomes of the routine other than success: the explicit
`ValueError` when no table matches, the `ValueError` raised by
`astype(float)` on a non-numeric amount, and the `AttributeError` from
accessing `.tbody.find_all` when `tbody` is `None`. -/
inductive ExtractError where
  | notFound
  | parseFailure
  | attributeError
deriving DecidableEq, Repr

/-- One output row: period label and cleaned amount. -/
structure RevenueRecord where
  label : Str
  amount : PyFloat
deriving DecidableEq, Repr

/-- The routine's successful output. -/
abbrev RevenueSeries := List RevenueRecord

/-- The loop `for tbl in tables: if table_label in tbl.get_text(): ...
break`: first table whose rendered text contains the label. -/
def findTargetTable (doc : Document) (label : Str) : Option HtmlTable :=
  doc.find? fun t => hasSub t.text label

/-- The cleanup `.str.replace(r"[$,]", "", regex=True)`: delete every
dollar sign and comma. -/
def removeDollarComma (s : Str) : Str :=
  s.filter fun c => ¬(c = '$' ∨ c = ',')

/-- One iteration of the row loop: rows with fewer than two cells are
dropped, the first two cells are stripped, and rows whose amount is
empty or (case-insensitively) `"nan"` are dropped; otherwise the row
contributes the pair (date, raw amount). -/
def rowPair? (row : List Str) : Option (Str × Str) :=
  match row with
  | c0 :: c1 :: _ =>
    let date := pyStrip c0
    let revenue := pyStrip c1
    if revenue = [] ∨ pyLower revenue = "nan".data then none
    else some (date, revenue)
  | _ => none

/-- The whole row loop: the retained (date, raw amount) pairs in order. -/
def rowPairs (rows : List (List Str)) : List (Str × Str) :=
  rows.filterMap rowPair?

/-- Conversion of one cleaned amount, `float(...)` inside
`astype(float)`: failure is the fatal `ValueError` of the column cast. -/
def parseAmount (raw : Str) : Except ExtractError PyFloat :=
  match pyFloat? (removeDollarComma raw) with
  | some v => Except.ok v
  | none => Except.error ExtractError.parseFailure

/-- The column cast `revenue_df["Revenue"].str.replace(...).astype(float)`:
every retained amount is cleaned and converted; any failure aborts the
whole call with no partial result. -/
def buildSeries : List (Str × Str) → Except ExtractError RevenueSeries
  | [] => Except.ok []
  | p :: ps =>
    match parseAmount p.2 with
    | Except.error e => Except.error e
    | Except.ok v =>
      match buildSeries ps with
      | Except.error e => Except.error e
      | Except.ok rest => Except.ok (⟨p.1, v⟩ :: rest)

/-- Ordering used by `sort_values("Date")` on the string column. -/
def labelLe (a b : RevenueRecord) : Prop := lexLe a.label b.label = true

instance : DecidableRel labelLe :=
  fun a b => inferInstanceAs (Decidable (lexLe a.label b.label = true))

/-- The final `sort_values("Date")` step (tie order is immaterial to
every stated property; a stable sort is used here). -/
def sortSeries (s : RevenueSeries) : RevenueSeries :=
  s.insertionSort labelLe

/-- Everything after a table has been selected: `target_table.tbody`
access (AttributeError when absent), the row loop, the column cast, and
the sort. -/
def processTarget (t : HtmlTable) : Except ExtractError RevenueSeries :=
  match t.tbody with
  | none => Except.error ExtractError.attributeError
  | some rows =>
    match buildSeries (rowPairs rows) with
    | Except.error e => Except.error e
    | Except.ok l => Except.ok (sortSeries l)

/-- The extraction routine `get_revenue_from_macrotrends` applied to an
already-fetched, already-parsed document (the network fetch is the
out-of-scope Fetcher). -/
def get_revenue_from_macrotrends (doc : Document) (label : Str) :
    Except ExtractError RevenueSeries :=
  match findTargetTable doc label with
  | none => Except.error ExtractError.notFound
  | some t => processTarget t

deriving instance DecidableEq for Except

/-! Helper lemmas about the ordering, stripping and the pipeline. -/

/-- Totality of the lexicographic string order. -/
theorem lexLe_total : ∀ s t : Str, lexLe s t = true ∨ lexLe t s = true := by
  intro s
  induction s with
  | nil => intro t; left; rfl
  | cons a as ih =>
    intro t
    cases t with
    | nil => right; rfl
    | cons b bs =>
      simp only [lexLe, Bool.or_eq_true, Bool.and_eq_true, decide_eq_true_eq]
      rcases Nat.lt_trichotomy a.toNat b.toNat with h | h | h
      · exact Or.inl (Or.inl h)
      · rcases ih bs with h2 | h2
        · exact Or.inl (Or.inr ⟨h, h2⟩)
        · exact Or.inr (Or.inr ⟨h.symm, h2⟩)
      · exact Or.inr (Or.inl h)

/-- Transitivity of the lexicographic string order. -/
theorem lexLe_trans :
    ∀ s t u : Str, lexLe s t = true → lexLe t u = true → lexLe s u = true := by
  intro s
  induction s with
  | nil => intro t u _ _; rfl
  | cons a as ih =>
    intro t u hst htu
    cases t with
    | nil => simp [lexLe] at hst
    | cons b bs =>
      cases u with
      | nil => simp [lexLe] at htu
      | cons c cs =>
        simp only [lexLe, Bool.or_eq_true, Bool.and_eq_true, decide_eq_true_eq]
          at hst htu ⊢
        rcases hst with h1 | ⟨h1e, h1r⟩ <;> rcases htu with h2 | ⟨h2e, h2r⟩
        · exact Or.inl (Nat.lt_trans h1 h2)
        · exact Or.inl (by omega)
        · exact Or.inl (by omega)
        · exact Or.inr ⟨by omega, ih bs cs h1r h2r⟩

instance : IsTotal RevenueRecord labelLe :=
  ⟨fun a b => lexLe_total a.label b.label⟩

instance : IsTrans RevenueRecord labelLe :=
  ⟨fun a b c => lexLe_trans a.label b.label c.label⟩

/-- Dropping a prefix by a predicate is idempotent. -/
theorem dropWhile_dropWhile_same {α : Type} (p : α → Bool) (l : List α) :
    List.dropWhile p (List.dropWhile p l) = List.dropWhile p l := by
  induction l with
  | nil => rfl
  | cons a l ih =>
    by_cases h : p a = true
    · simp [List.dropWhile_cons, h, ih]
    · simp [List.dropWhile_cons, h]

/-- The head surviving a `dropWhile` fails the predicate. -/
theorem dropWhile_head_false {α : Type} {p : α → Bool} :
    ∀ {l : List α} {a : α} {t : List α},
      List.dropWhile p l = a :: t → p a = false := by
  intro l
  induction l with
  | nil => intro a t h; cases h
  | cons b l ih =>
    intro a t h
    by_cases hb : p b = true
    · rw [List.dropWhile_cons, if_pos hb] at h
      exact ih h
    · rw [List.dropWhile_cons, if_neg hb] at h
      cases h
      simpa using hb

/-- A list is its trailing-`dropWhile` part followed by a remainder. -/
theorem reverse_dropWhile_decomp {α : Type} (p : α → Bool) (l : List α) :
    ∃ w, l = (l.reverse.dropWhile p).reverse ++ w := by
  refine ⟨(l.reverse.takeWhile p).reverse, ?_⟩
  calc l = l.reverse.reverse := (List.reverse_reverse l).symm
  _ = (l.reverse.takeWhile p ++ l.reverse.dropWhile p).reverse := by
        rw [List.takeWhile_append_dropWhile]
  _ = (l.reverse.dropWhile p).reverse ++ (l.reverse.takeWhile p).reverse := by
        rw [List.reverse_append]

/-- A stripped string never begins with whitespace. -/
theorem pyStrip_head_false {s : Str} {a : Char} {t : Str}
    (h : pyStrip s = a :: t) : isPySpace a = false := by
  have hdd := dropWhile_dropWhile_same isPySpace s
  obtain ⟨w, hw⟩ := reverse_dropWhile_decomp isPySpace (List.dropWhile isPySpace s)
  have hw2 : List.dropWhile isPySpace s = pyStrip s ++ w := hw
  have key : List.dropWhile isPySpace (List.dropWhile isPySpace s)
      = a :: (t ++ w) := by
    rw [hdd, hw2, h]; rfl
  exact dropWhile_head_false key

/-- Stripping is idempotent. -/
theorem pyStrip_pyStrip (s : Str) : pyStrip (pyStrip s) = pyStrip s := by
  have h1 : List.dropWhile isPySpace (pyStrip s) = pyStrip s := by
    cases hc : pyStrip s with
    | nil => rfl
    | cons a t =>
      rw [List.dropWhile_cons, if_neg (by simp [pyStrip_head_false hc])]
  have h2 : (pyStrip s).reverse
      = List.dropWhile isPySpace (s.dropWhile isPySpace).reverse := by
    show (((s.dropWhile isPySpace).reverse.dropWhile isPySpace).reverse).reverse = _
    rw [List.reverse_reverse]
  show ((List.dropWhile isPySpace (pyStrip s)).reverse.dropWhile isPySpace).reverse
      = pyStrip s
  rw [h1, h2, dropWhile_dropWhile_same, ← h2, List.reverse_reverse]

/-- A string of nothing but whitespace strips to the empty string. -/
theorem pyStrip_all_space {s : Str} (h : ∀ c ∈ s, isPySpace c = true) :
    pyStrip s = [] := by
  unfold pyStrip
  rw [List.dropWhile_eq_nil_iff.mpr h]
  rfl


theorem find?_append_cons {α : Type} (p : α → Bool) (pre : List α) (t : α)
    (post : List α) (hpre : ∀ u ∈ pre, p u = false) (ht : p t = true) :
    List.find? p (pre ++ t :: post) = some t := by
  induction pre with
  | nil => simp [List.find?_cons, ht]
  | cons a pre ih =>
    have ha : p a = false := hpre a (by simp)
    rw [List.cons_append, List.find?_cons, ha]
    exact ih fun u hu => hpre u (by simp [hu])

theorem extract_ok_inv {doc : Document} {label : Str} {series : RevenueSeries}
    (h : get_revenue_from_macrotrends doc label = Except.ok series) :
    ∃ t rows l, findTargetTable doc label = some t ∧ t.tbody = some rows ∧
      buildSeries (rowPairs rows) = Except.ok l ∧ series = sortSeries l := by
  cases hf : findTargetTable doc label with
  | none =>
    unfold get_revenue_from_macrotrends at h
    rw [hf] at h
    exact Except.noConfusion h
  | some t =>
    have h2 : processTarget t = Except.ok series := by
      unfold get_revenue_from_macrotrends at h
      rw [hf] at h
      exact h
    cases hb : t.tbody with
    | none =>
      unfold processTarget at h2
      rw [hb] at h2
      exact Except.noConfusion h2
    | some rows =>
      unfold processTarget at h2
      rw [hb] at h2
      have h3 : (match buildSeries (rowPairs rows) with
          | Except.error e => Except.error e
          | Except.ok l => Except.ok (sortSeries l)) = Except.ok series := h2
      cases hbuild : buildSeries (rowPairs rows) with
      | error e =>
        rw [hbuild] at h3
        exact Except.noConfusion h3
      | ok l =>
        rw [hbuild] at h3
        refine ⟨t, rows, l, rfl, hb, hbuild, ?_⟩
        exact (Except.ok.injEq _ _ ▸ h3).symm

theorem buildSeries_error_of_mem {ps : List (Str × Str)}
    (h : ∃ p ∈ ps, pyFloat? (removeDollarComma p.2) = none) :
    buildSeries ps = Except.error ExtractError.parseFailure := by
  induction ps with
  | nil => obtain ⟨p, hp, _⟩ := h; cases hp
  | cons q ps ih =>
    obtain ⟨p, hp, hfail⟩ := h
    rcases List.mem_cons.mp hp with rfl | hp
    · show buildSeries (p :: ps) = _
      unfold buildSeries parseAmount
      rw [hfail]
    · show buildSeries (q :: ps) = _
      unfold buildSeries
      cases hq : parseAmount q.2 with
      | error e =>
        unfold parseAmount at hq
        cases hq2 : pyFloat? (removeDollarComma q.2) with
        | none => rw [hq2] at hq; cases hq; rfl
        | some v => rw [hq2] at hq; cases hq
      | ok v => rw [ih ⟨p, hp, hfail⟩]

theorem buildSeries_ok_mem {ps : List (Str × Str)} {l : RevenueSeries}
    {r : RevenueRecord} (h : buildSeries ps = Except.ok l) (hr : r ∈ l) :
    ∃ p ∈ ps, r.label = p.1 ∧
      pyFloat? (removeDollarComma p.2) = some r.amount := by
  induction ps generalizing l with
  | nil =>
    cases h
    cases hr
  | cons q ps ih =>
    unfold buildSeries at h
    cases hq : parseAmount q.2 with
    | error e => rw [hq] at h; cases h
    | ok v =>
      rw [hq] at h
      cases hrest : buildSeries ps with
      | error e => rw [hrest] at h; cases h
      | ok rest =>
        rw [hrest] at h
        cases h
        rcases List.mem_cons.mp hr with rfl | hr2
        · refine ⟨q, by simp, rfl, ?_⟩
          unfold parseAmount at hq
          cases hq2 : pyFloat? (removeDollarComma q.2) with
          | none => rw [hq2] at hq; cases hq
          | some v2 => rw [hq2] at hq; cases hq; rfl
        · obtain ⟨p, hp, h1, h2⟩ := ih hrest hr2
          exact ⟨p, by simp [hp], h1, h2⟩

theorem rowPair?_some {row : List Str} {p : Str × Str}
    (h : rowPair? row = some p) :
    ∃ c0 c1 rest, row = c0 :: c1 :: rest ∧
      ¬(pyStrip c1 = [] ∨ pyLower (pyStrip c1) = "nan".data) ∧
      p = (pyStrip c0, pyStrip c1) := by
  rcases row with _ | ⟨c0, _ | ⟨c1, rest⟩⟩
  · exact Option.noConfusion h
  · exact Option.noConfusion h
  · refine ⟨c0, c1, rest, rfl, ?_⟩
    simp only [rowPair?] at h
    split at h
    · exact Option.noConfusion h
    · rename_i hcond
      cases h
      exact ⟨hcond, rfl⟩

theorem rowPairs_skip (r1 r2 : List (List Str)) {row : List Str}
    (h : rowPair? row = none) :
    rowPairs (r1 ++ row :: r2) = rowPairs (r1 ++ r2) := by
  unfold rowPairs
  rw [List.filterMap_append, List.filterMap_append, List.filterMap_cons, h]

theorem rowPairs_keep (r1 r2 : List (List Str)) {row : List Str}
    {p : Str × Str} (h : rowPair? row = some p) :
    rowPairs (r1 ++ row :: r2) = rowPairs r1 ++ p :: rowPairs r2 := by
  unfold rowPairs
  rw [List.filterMap_append, List.filterMap_cons, h]

/-! Supporting lemma for C8. -/

/-- Exact characterization of non-finite float conversion: a parsed
amount is non-finite precisely when the text spells a special literal or
its numeral reaches the binary64 overflow threshold. -/
theorem pyFloat?_finite_iff {s : Str} {v : PyFloat}
    (h : pyFloat? s = some v) :
    v.isFinite = false ↔
      isSpecialLit s ∨
        ∃ q, parseNum (floatBody s).2 = some q ∧ floatOverflows q = true := by
  simp only [pyFloat?] at h
  by_cases h1 : (floatBody s).2 = "inf".data ∨ (floatBody s).2 = "infinity".data
  · rw [if_pos h1] at h
    cases h
    constructor
    · intro _
      exact Or.inl (h1.elim Or.inl fun hb => Or.inr (Or.inl hb))
    · intro _
      rfl
  · rw [if_neg h1] at h
    by_cases h2 : (floatBody s).2 = "nan".data
    · rw [if_pos h2] at h
      cases h
      constructor
      · intro _
        exact Or.inl (Or.inr (Or.inr h2))
      · intro _
        rfl
    · rw [if_neg h2] at h
      cases hp : parseNum (floatBody s).2 with
      | none => rw [hp] at h; cases h
      | some q =>
        rw [hp] at h
        simp only [Option.map_some'] at h
        by_cases hov : floatOverflows q = true
        · rw [if_pos hov] at h
          cases h
          constructor
          · intro _
            exact Or.inr ⟨q, rfl, hov⟩
          · intro _
            rfl
        · rw [if_neg hov] at h
          cases h
          constructor
          · intro hfalse
            exact absurd hfalse (by simp [PyFloat.isFinite])
          · intro hrhs
            exfalso
            rcases hrhs with hs | ⟨q2, hq2, hov2⟩
            · have hs2 : (floatBody s).2 = "inf".data ∨
                  (floatBody s).2 = "infinity".data ∨
                  (floatBody s).2 = "nan".data := hs
              rcases hs2 with a | b | c
              · exact h1 (Or.inl a)
              · exact h1 (Or.inr b)
              · exact h2 c
            · cases hq2
              exact hov hov2

/-! Claim theorems. -/

/-- C1: whenever extraction succeeds, the returned series is sorted
ascending by the original label string under plain lexicographic
ordering: adjacent records satisfy series[i].label <= series[i+1].label. -/
theorem c1_sorted_by_label (doc : Document) (label : Str)
    (series : RevenueSeries)
    (h : get_revenue_from_macrotrends doc label = Except.ok series) :
    ∀ i, ∀ hi : i + 1 < series.length,
      lexLe (series.get ⟨i, Nat.lt_of_succ_lt hi⟩).label
        (series.get ⟨i + 1, hi⟩).label = true := by
  obtain ⟨t, rows, l, _, _, _, hs⟩ := extract_ok_inv h
  have hsorted : List.Sorted labelLe series := by
    rw [hs]
    exact List.sorted_insertionSort labelLe l
  intro i hi
  exact List.pairwise_iff_get.mp hsorted ⟨i, Nat.lt_of_succ_lt hi⟩ ⟨i + 1, hi⟩
    (Fin.mk_lt_mk.mpr (Nat.lt_succ_self i))

/-- C1 witness: the sortedness theorem applied to the concrete Scenario A
document at index 0. -/
theorem c1_witness :
    lexLe (([RevenueRecord.mk "2023-09-30".data (PyFloat.finite 23350),
             RevenueRecord.mk "2023-12-31".data (PyFloat.finite 24318)].get
        ⟨0, by decide⟩).label)
      (([RevenueRecord.mk "2023-09-30".data (PyFloat.finite 23350),
         RevenueRecord.mk "2023-12-31".data (PyFloat.finite 24318)].get
        ⟨1, by decide⟩).label) = true :=
  c1_sorted_by_label
    [HtmlTable.mk "Tesla Quarterly Revenue (Millions of US $)".data
      (some [["2023-12-31".data, "$24,318".data],
             ["2023-09-30".data, "$23,350".data]])]
    "Tesla Quarterly Revenue".data
    [RevenueRecord.mk "2023-09-30".data (PyFloat.finite 23350),
     RevenueRecord.mk "2023-12-31".data (PyFloat.finite 24318)]
    (by decide) 0 (by decide)

/-- C2: the extractor selects the first table, in document order, whose
rendered text contains the label as a case-sensitive exact substring
(first match wins, no scoring, no fallback), and when no table matches
the call fails with the "table not found" error. -/
theorem c2_first_match_or_not_found (doc : Document) (label : Str) :
    ((∀ t ∈ doc, hasSub t.text label = false) →
      get_revenue_from_macrotrends doc label
        = Except.error ExtractError.notFound) ∧
    (∀ pre t post, doc = pre ++ t :: post →
      (∀ u ∈ pre, hasSub u.text label = false) →
      hasSub t.text label = true →
      get_revenue_from_macrotrends doc label = processTarget t) := by
  constructor
  · intro hall
    unfold get_revenue_from_macrotrends findTargetTable
    rw [List.find?_eq_none.mpr fun t ht => by simp [hall t ht]]
  · intro pre t post hdoc hpre ht
    subst hdoc
    unfold get_revenue_from_macrotrends findTargetTable
    rw [find?_append_cons _ pre t post hpre ht]

/-- C2 witness: with one non-matching table ahead of a matching one the
call processes the matching table, and with no matching table it fails
with the not-found error. -/
theorem c2_witness :
    get_revenue_from_macrotrends
      [HtmlTable.mk "Unrelated Table".data (some []),
       HtmlTable.mk "Tesla Quarterly Revenue".data (some [])]
      "Tesla Quarterly Revenue".data
      = processTarget (HtmlTable.mk "Tesla Quarterly Revenue".data (some []))
    ∧ get_revenue_from_macrotrends
        [HtmlTable.mk "Unrelated Table".data (some [])]
        "Tesla Quarterly Revenue".data
      = Except.error ExtractError.notFound :=
  ⟨(c2_first_match_or_not_found _ _).2
      [HtmlTable.mk "Unrelated Table".data (some [])]
      (HtmlTable.mk "Tesla Quarterly Revenue".data (some [])) [] rfl
      (by decide) (by decide),
   (c2_first_match_or_not_found _ _).1 (by decide)⟩

/-- C3: when the selected table has a retained row whose amount, after
removing every dollar sign and comma, does not parse as a number, the
whole call fails with the parse-failure error: no partial series is
returned. -/
theorem c3_parse_failure_is_fatal (doc : Document) (label : Str)
    (t : HtmlTable) (rows : List (List Str))
    (hfind : findTargetTable doc label = some t)
    (hbody : t.tbody = some rows)
    (hbad : ∃ p ∈ rowPairs rows, pyFloat? (removeDollarComma p.2) = none) :
    get_revenue_from_macrotrends doc label
      = Except.error ExtractError.parseFailure := by
  unfold get_revenue_from_macrotrends
  rw [hfind]
  show processTarget t = _
  unfold processTarget
  rw [hbody]
  show (match buildSeries (rowPairs rows) with
      | Except.error e => Except.error e
      | Except.ok l => Except.ok (sortSeries l)) = _
  rw [buildSeries_error_of_mem hbad]

/-- C3 witness: the Scenario E row ["2021-12-31","abc"] makes the whole
call fail with the parse-failure error. -/
theorem c3_witness :
    get_revenue_from_macrotrends
      [HtmlTable.mk "Tesla Quarterly Revenue".data
        (some [["2021-12-31".data, "abc".data]])]
      "Tesla Quarterly Revenue".data
      = Except.error ExtractError.parseFailure :=
  c3_parse_failure_is_fatal _ _
    (HtmlTable.mk "Tesla Quarterly Revenue".data
      (some [["2021-12-31".data, "abc".data]]))
    [["2021-12-31".data, "abc".data]]
    (by decide) rfl
    ⟨("2021-12-31".data, "abc".data), by decide, by decide⟩

/-- C4: in the row loop, a row with fewer than two cells, or whose second
cell strips to the empty string or (case-insensitively) to "nan",
contributes nothing and raises no error, while every other row
contributes exactly the pair of its first two stripped cells. -/
theorem c4_row_skip_and_keep (r1 r2 : List (List Str)) (row : List Str) :
    ((row.length < 2 ∨ ∃ c0 c1 rest, row = c0 :: c1 :: rest ∧
        (pyStrip c1 = [] ∨ pyLower (pyStrip c1) = "nan".data)) →
      rowPairs (r1 ++ row :: r2) = rowPairs (r1 ++ r2)) ∧
    (∀ c0 c1 rest, row = c0 :: c1 :: rest →
      ¬(pyStrip c1 = [] ∨ pyLower (pyStrip c1) = "nan".data) →
      rowPairs (r1 ++ row :: r2)
        = rowPairs r1 ++ (pyStrip c0, pyStrip c1) :: rowPairs r2) := by
  constructor
  · intro h
    apply rowPairs_skip
    rcases h with hlen | ⟨c0, c1, rest, hrow, hcond⟩
    · rcases row with _ | ⟨a, _ | ⟨b, rest⟩⟩
      · rfl
      · rfl
      · simp only [List.length_cons] at hlen
        omega
    · subst hrow
      simp only [rowPair?]
      rw [if_pos hcond]
  · intro c0 c1 rest hrow hcond
    subst hrow
    apply rowPairs_keep
    simp only [rowPair?]
    rw [if_neg hcond]

/-- C4 witness: a row with an empty amount cell is dropped, and a normal
row contributes exactly its stripped first two cells. -/
theorem c4_witness :
    rowPairs [["2023-12-31".data, "$24,318".data],
              ["2022-06-30".data, "".data],
              ["2023-09-30".data, "$23,350".data]]
      = rowPairs [["2023-12-31".data, "$24,318".data],
                  ["2023-09-30".data, "$23,350".data]]
    ∧ rowPairs [["2023-12-31".data, "$24,318".data]]
      = [(pyStrip "2023-12-31".data, pyStrip "$24,318".data)] :=
  ⟨(c4_row_skip_and_keep [["2023-12-31".data, "$24,318".data]]
      [["2023-09-30".data, "$23,350".data]] ["2022-06-30".data, "".data]).1
      (Or.inr ⟨"2022-06-30".data, "".data, [], rfl, Or.inl (by decide)⟩),
   (c4_row_skip_and_keep [] [] ["2023-12-31".data, "$24,318".data]).2
      "2023-12-31".data "$24,318".data [] rfl (by decide)⟩

/-- C5: the Scenario A document with rows ["2023-12-31","$24,318"] and
["2023-09-30","$23,350"] extracts, under the label "Tesla Quarterly
Revenue", exactly the two-record series in ascending label order. -/
theorem c5_scenario_a :
    get_revenue_from_macrotrends
      [HtmlTable.mk "Tesla Quarterly Revenue (Millions of US $)".data
        (some [["2023-12-31".data, "$24,318".data],
               ["2023-09-30".data, "$23,350".data]])]
      "Tesla Quarterly Revenue".data
    = Except.ok [RevenueRecord.mk "2023-09-30".data (PyFloat.finite 23350),
                 RevenueRecord.mk "2023-12-31".data (PyFloat.finite 24318)] := by
  decide

/-- C6: extraction is deterministic and stateless; it is a pure function
of the document and the label, so re-running it on the same input yields
an identical series. -/
theorem c6_deterministic (doc : Document) (label : Str) :
    get_revenue_from_macrotrends doc label
      = get_revenue_from_macrotrends doc label := rfl

/-- C7 counterexample: with surrounding whitespace in the first cell the
emitted label is the stripped text, so it differs from the original cell
text: characters are removed, refuting the claim that no character is
ever changed, added or removed. -/
theorem c7_counterexample :
    get_revenue_from_macrotrends
      [HtmlTable.mk "Tesla Quarterly Revenue".data
        (some [[" 2023-12-31 ".data, "$24,318".data]])]
      "Tesla Quarterly Revenue".data
      = Except.ok [RevenueRecord.mk "2023-12-31".data (PyFloat.finite 24318)]
    ∧ "2023-12-31".data ≠ " 2023-12-31 ".data := ⟨by decide, by decide⟩

/-- C7 (amended): every record's label is the first cell of a body row of
the selected table with leading and trailing whitespace stripped, and is
otherwise unmodified. -/
theorem c7_label_from_first_cell (doc : Document) (label : Str)
    (t : HtmlTable) (rows : List (List Str)) (series : RevenueSeries)
    (hfind : findTargetTable doc label = some t)
    (hbody : t.tbody = some rows)
    (hok : get_revenue_from_macrotrends doc label = Except.ok series) :
    ∀ r ∈ series, ∃ c0 c1 rest,
      (c0 :: c1 :: rest) ∈ rows ∧ r.label = pyStrip c0 := by
  intro r hr
  obtain ⟨t2, rows2, l, hfind2, hbody2, hbuild, hs⟩ := extract_ok_inv hok
  have ht : t = t2 := Option.some.inj (hfind.symm.trans hfind2)
  subst ht
  have hrows : rows = rows2 := Option.some.inj (hbody.symm.trans hbody2)
  subst hrows
  have hrs : r ∈ sortSeries l := hs ▸ hr
  have hrl : r ∈ l := (List.perm_insertionSort labelLe l).mem_iff.mp hrs
  obtain ⟨p, hp, hlabel, _⟩ := buildSeries_ok_mem hbuild hrl
  obtain ⟨row, hrow, hsome⟩ := List.mem_filterMap.mp hp
  obtain ⟨c0, c1, rest, hre, _, hpe⟩ := rowPair?_some hsome
  subst hre
  refine ⟨c0, c1, rest, hrow, ?_⟩
  rw [hlabel, hpe]

/-- C7 witness: the amended provenance theorem applied to a concrete
document with a whitespace-padded first cell. -/
theorem c7_witness :
    ∃ c0 c1 rest,
      (c0 :: c1 :: rest) ∈ [[" 2023-12-31 ".data, "$24,318".data]] ∧
      (RevenueRecord.mk "2023-12-31".data (PyFloat.finite 24318)).label
        = pyStrip c0 :=
  c7_label_from_first_cell
    [HtmlTable.mk "Tesla Quarterly Revenue".data
      (some [[" 2023-12-31 ".data, "$24,318".data]])]
    "Tesla Quarterly Revenue".data
    (HtmlTable.mk "Tesla Quarterly Revenue".data
      (some [[" 2023-12-31 ".data, "$24,318".data]]))
    [[" 2023-12-31 ".data, "$24,318".data]]
    [RevenueRecord.mk "2023-12-31".data (PyFloat.finite 24318)]
    (by decide) rfl (by decide)
    (RevenueRecord.mk "2023-12-31".data (PyFloat.finite 24318)) (by decide)

/-- C8 counterexample: the raw amount "inf" survives the empty/"nan" row
filter, parses under Python float conversion, and puts a non-finite
amount into a successful output series, refuting "never an infinite
value". -/
theorem c8_counterexample :
    get_revenue_from_macrotrends
      [HtmlTable.mk "Tesla Quarterly Revenue".data
        (some [["2021-12-31".data, "inf".data]])]
      "Tesla Quarterly Revenue".data
      = Except.ok [RevenueRecord.mk "2021-12-31".data (PyFloat.inf false)]
    ∧ (PyFloat.inf false).isFinite = false := ⟨by decide, rfl⟩

/-- C8 (amended): every record's amount comes from Python float
conversion of its cleaned amount text, the cleaned text contains no
dollar sign and no comma, and the amount is non-finite exactly when the
cleaned text spells one of Python's special float literals (inf,
infinity, nan) or its numeral reaches the binary64 overflow threshold
2^1024 - 2^970 and saturates to infinity; on every other retained row
the amount is finite. -/
theorem c8_amount_clean_and_finite (doc : Document) (label : Str)
    (series : RevenueSeries)
    (hok : get_revenue_from_macrotrends doc label = Except.ok series) :
    ∀ r ∈ series, ∃ raw : Str,
      pyFloat? (removeDollarComma raw) = some r.amount ∧
      (∀ c ∈ removeDollarComma raw, c ≠ '$' ∧ c ≠ ',') ∧
      (r.amount.isFinite = false ↔
        isSpecialLit (removeDollarComma raw) ∨
          ∃ q, parseNum (floatBody (removeDollarComma raw)).2 = some q ∧
            floatOverflows q = true) := by
  intro r hr
  obtain ⟨t, rows, l, _, _, hbuild, hs⟩ := extract_ok_inv hok
  have hrs : r ∈ sortSeries l := hs ▸ hr
  have hrl : r ∈ l := (List.perm_insertionSort labelLe l).mem_iff.mp hrs
  obtain ⟨p, hp, _, hamount⟩ := buildSeries_ok_mem hbuild hrl
  refine ⟨p.2, hamount, ?_, pyFloat?_finite_iff hamount⟩
  intro c hc
  have hmem := List.mem_filter.mp hc
  have hcond := of_decide_eq_true hmem.2
  exact ⟨fun he => hcond (Or.inl he), fun he => hcond (Or.inr he)⟩

/-- C8 witness: the amended theorem applied to the Scenario A document at
its first record. -/
theorem c8_witness :
    ∃ raw : Str,
      pyFloat? (removeDollarComma raw)
        = some (RevenueRecord.mk "2023-09-30".data
            (PyFloat.finite 23350)).amount ∧
      (∀ c ∈ removeDollarComma raw, c ≠ '$' ∧ c ≠ ',') ∧
      ((RevenueRecord.mk "2023-09-30".data
          (PyFloat.finite 23350)).amount.isFinite = false ↔
        isSpecialLit (removeDollarComma raw) ∨
          ∃ q, parseNum (floatBody (removeDollarComma raw)).2 = some q ∧
            floatOverflows q = true) :=
  c8_amount_clean_and_finite
    [HtmlTable.mk "Tesla Quarterly Revenue (Millions of US $)".data
      (some [["2023-12-31".data, "$24,318".data],
             ["2023-09-30".data, "$23,350".data]])]
    "Tesla Quarterly Revenue".data
    [RevenueRecord.mk "2023-09-30".data (PyFloat.finite 23350),
     RevenueRecord.mk "2023-12-31".data (PyFloat.finite 24318)]
    (by decide)
    (RevenueRecord.mk "2023-09-30".data (PyFloat.finite 23350)) (by decide)

/-- C9: a document whose first label-matching table carries no tbody
makes the call abort with an attribute error, an outcome outside the
spec's ExtractionError taxonomy: it is neither the not-found nor the
parse-failure error, and no empty series is returned. -/
theorem c9_missing_tbody_attribute_error :
    get_revenue_from_macrotrends
      [HtmlTable.mk "GameStop Quarterly Revenue".data none]
      "GameStop Quarterly Revenue".data
      = Except.error ExtractError.attributeError
    ∧ ExtractError.attributeError ≠ ExtractError.notFound
    ∧ ExtractError.attributeError ≠ ExtractError.parseFailure :=
  ⟨by decide, by decide, by decide⟩

/-- C10: a row whose raw amount cell is all whitespace strips to empty
and is silently skipped, and every retained pair is already stripped, so
no emitted label or amount text carries surrounding whitespace. -/
theorem c10_whitespace_stripping :
    (∀ (r1 r2 : List (List Str)) (c0 c1 : Str) (rest : List Str),
        (∀ c ∈ c1, isPySpace c = true) →
        rowPairs (r1 ++ (c0 :: c1 :: rest) :: r2) = rowPairs (r1 ++ r2)) ∧
    (∀ rows p, p ∈ rowPairs rows → pyStrip p.1 = p.1 ∧ pyStrip p.2 = p.2) := by
  constructor
  · intro r1 r2 c0 c1 rest hws
    apply rowPairs_skip
    simp only [rowPair?]
    rw [if_pos (Or.inl (pyStrip_all_space hws))]
  · intro rows p hp
    obtain ⟨row, hrow, hsome⟩ := List.mem_filterMap.mp hp
    obtain ⟨c0, c1, rest, _, _, hpe⟩ := rowPair?_some hsome
    subst hpe
    exact ⟨pyStrip_pyStrip c0, pyStrip_pyStrip c1⟩

/-- C10 witness: a whitespace-only amount cell is skipped, and a
retained pair is fixed by further stripping. -/
theorem c10_witness :
    rowPairs [["2021-12-31".data, "   ".data],
              ["2023-09-30".data, "$23,350".data]]
      = rowPairs [["2023-09-30".data, "$23,350".data]]
    ∧ (pyStrip ("2023-09-30".data, "$23,350".data).1
         = ("2023-09-30".data, "$23,350".data).1
       ∧ pyStrip ("2023-09-30".data, "$23,350".data).2
         = ("2023-09-30".data, "$23,350".data).2) :=
  ⟨c10_whitespace_stripping.1 [] [["2023-09-30".data, "$23,350".data]]
      "2021-12-31".data "   ".data [] (by decide),
   c10_whitespace_stripping.2 [["2023-09-30".data, "$23,350".data]]
      ("2023-09-30".data, "$23,350".data) (by decide)⟩

end StockSpec
